import Mathlib

/-!
Shallow embedding of `cf_app_log_detector` (Rust, nom 4 + chrono 0.4).

Strings are modelled as `List Char`.  A nom 4 parser on `&str` returns
`Ok((rest, value))`, `Err(Err::Error _)` (recoverable: `alt!`/`opt!` try the
next alternative) or `Err(Err::Incomplete _)` (streaming: it aborts `alt!`,
`opt!` and `many0!`).  `Err::Failure` is never produced by the combinators the
source uses, so it is not modelled.
-/

inductive PResult (α : Type) where
  | ok (rest : List Char) (val : α)
  | err
  | inc
deriving DecidableEq, Repr

def PResult.isOk {α : Type} : PResult α → Bool
  | .ok _ _ => true
  | _ => false

/-- Sequencing of nom parsers (the `>>` chain inside `do_parse!`). -/
def pbind {α β : Type} (p : List Char → PResult α) (f : α → List Char → PResult β)
    (s : List Char) : PResult β :=
  match p s with
  | .ok rest v => f v rest
  | .err => .err
  | .inc => .inc

/-- nom 4 `alt!`: on `Err::Error` try the next branch; `Incomplete` aborts. -/
def palt {α : Type} (p q : List Char → PResult α) (s : List Char) : PResult α :=
  match p s with
  | .err => q s
  | r => r

/-- Core of nom 4 `tag!`: walk the tag against the input.  A mismatching
character is an ordinary `Error`; input that runs out while still matching is
`Incomplete` (the streaming comparison of the min-length prefix). -/
def ptagAux : List Char → List Char → PResult Unit
  | [], s => .ok s ()
  | _ :: _, [] => .inc
  | c :: ts, x :: xs => if x = c then ptagAux ts xs else .err

/-- nom 4 `tag!`: match a literal prefix, returning the matched slice. -/
def ptag (t s : List Char) : PResult (List Char) :=
  match ptagAux t s with
  | .ok rest _ => .ok rest t
  | .err => .err
  | .inc => .inc

/-- `tag!` whose value is replaced by a constant (the `tag! => {|_| v}` form). -/
def ptagV {α : Type} (t : List Char) (v : α) (s : List Char) : PResult α :=
  match ptag t s with
  | .ok rest _ => .ok rest v
  | .err => .err
  | .inc => .inc

/-- nom 4 `take_until!` for a one-character needle (the source only uses the
needles `" "`, `"]"` and `"/"`): capture everything before the first occurrence
without consuming it; `Incomplete` when the needle never occurs. -/
def takeUntilChar (c : Char) : List Char → PResult (List Char)
  | [] => .inc
  | x :: xs =>
    if x = c then .ok (x :: xs) []
    else
      match takeUntilChar c xs with
      | .ok rest cap => .ok rest (x :: cap)
      | .err => .err
      | .inc => .inc

/-- nom 4 `take_until_and_consume!` for a one-character needle. -/
def takeUntilConsumeChar (c : Char) : List Char → PResult (List Char)
  | [] => .inc
  | x :: xs =>
    if x = c then .ok xs []
    else
      match takeUntilConsumeChar c xs with
      | .ok rest cap => .ok rest (x :: cap)
      | .err => .err
      | .inc => .inc

/-- nom 4 `opt!`: `Error` is recovered (input restored), `Incomplete` aborts. -/
def pOpt {α : Type} (p : List Char → PResult α) (s : List Char) : PResult (Option α) :=
  match p s with
  | .ok rest v => .ok rest (some v)
  | .err => .ok s none
  | .inc => .inc

/-- nom 4 `many0!(tag!(" "))` from line 125 of `lib.rs`: consume spaces while
`tag!` succeeds; at end of input `tag!(" ")` reports `Incomplete`, which
`many0!` propagates. -/
def pspaces : List Char → PResult Unit
  | [] => .inc
  | c :: cs => if c = ' ' then pspaces cs else .ok (c :: cs) ()

/-! ## chrono 0.4: `DateTime::parse_from_str(s, "%Y-%m-%dT%H:%M:%S%.f%z")`

Modelled for this one fixed layout.  Numeric items skip leading whitespace and
read at most `width` digits (greedy); `%Y` additionally accepts an explicit
sign and is then unbounded.  `%.f` is an optional dot followed by fractional
digits of arbitrary count, of which the first nine are significant
(nanosecond resolution) and the rest are skipped.  `%z` is a mandatory sign,
two hour digits, an optional run of colons/whitespace, and two minute digits.
After all items the whole string must be consumed.  Validation mirrors
`Parsed::to_datetime`: calendar date (with leap years), `hour < 24`,
`minute < 60`, `second ≤ 60` (60 is a leap second, stored as 59 with the
nanosecond field raised by 10^9), and `|offset| < 86400` seconds.  The year
range check of `NaiveDate` (roughly ±262000) is included with its approximate
bounds; f64/overflow-free here since scanned numbers are bounded by 2^63. -/

structure CfDateTime where
  year : ℤ
  month : ℕ
  day : ℕ
  hour : ℕ
  minute : ℕ
  second : ℕ
  nano : ℕ
  offset : ℤ
deriving DecidableEq, Repr

def digitVal (c : Char) : ℕ := c.toNat - 48

/-- Read at most `maxW` leading ASCII digits, returning how many were read,
the accumulated value and the rest (chrono `scan::number`'s scanning core). -/
def scanDigits (maxW acc : ℕ) : List Char → ℕ × ℕ × List Char
  | [] => (0, acc, [])
  | c :: cs =>
    match maxW with
    | 0 => (0, acc, c :: cs)
    | w + 1 =>
      if c.isDigit then
        let r := scanDigits w (acc * 10 + digitVal c) cs
        (r.1 + 1, r.2.1, r.2.2)
      else (0, acc, c :: cs)

/-- chrono `scan::number(s, min, max)`: at least `minW` digits, i64 overflow
is an error. -/
def scanNumber (minW maxW : ℕ) (s : List Char) : Option (ℕ × List Char) :=
  let r := scanDigits maxW 0 s
  if r.1 < minW then none
  else if r.2.1 < 2 ^ 63 then some (r.2.1, r.2.2) else none

def trimLeftWs (s : List Char) : List Char := s.dropWhile (fun c => c.isWhitespace)

def dropDigitChars (s : List Char) : List Char := s.dropWhile (fun c => c.isDigit)

/-- Core of a numeric strftime item, after whitespace was skipped: an explicit
sign (honoured only when the item is signed, i.e. `%Y`) makes the scan
unbounded, otherwise at most `w` digits are read. -/
def numItemCore (w : ℕ) (signed : Bool) (s : List Char) : Option (ℤ × List Char) :=
  match s with
  | [] => none
  | c :: rest =>
    if c = '-' ∧ signed = true then
      (scanNumber 1 rest.length rest).map (fun r => (-(r.1 : ℤ), r.2))
    else if c = '+' ∧ signed = true then
      (scanNumber 1 rest.length rest).map (fun r => ((r.1 : ℤ), r.2))
    else (scanNumber 1 w (c :: rest)).map (fun r => ((r.1 : ℤ), r.2))

/-- A numeric strftime item (chrono `parse.rs`, `Item::Numeric`): skip leading
whitespace, then scan. -/
def parseNumItem (w : ℕ) (signed : Bool) (s0 : List Char) : Option (ℤ × List Char) :=
  numItemCore w signed (trimLeftWs s0)

/-- A literal character of the layout (chrono `Item::Literal`). -/
def parseLit (c : Char) (s : List Char) : Option (List Char) :=
  match s with
  | x :: xs => if x = c then some xs else none
  | [] => none

/-- `%.f` (chrono `Fixed::Nanosecond`): optional; a dot must be followed by at
least one digit; the first nine digits are significant, further digits are
skipped. -/
def parseNanoItem (s : List Char) : Option (ℕ × List Char) :=
  match s with
  | [] => some (0, [])
  | c :: rest =>
    if c = '.' then
      let r := scanDigits 9 0 rest
      if r.1 = 0 then none
      else some (r.2.1 * 10 ^ (9 - r.1), dropDigitChars r.2.2)
    else some (0, c :: rest)

/-- Exactly two ASCII digits (chrono `scan::timezone_offset`'s `digits`). -/
def parseTwoDigits (s : List Char) : Option (ℕ × List Char) :=
  match s with
  | c1 :: c2 :: r =>
    if c1.isDigit && c2.isDigit then some (digitVal c1 * 10 + digitVal c2, r) else none
  | _ => none

def dropColonWs (s : List Char) : List Char :=
  s.dropWhile (fun c => c == ':' || c.isWhitespace)

/-- `%z` (chrono `Fixed::TimezoneOffset`): mandatory sign, two hour digits,
optional colons/whitespace, two minute digits; result in seconds. -/
def tzItemCore (neg : Bool) (r : List Char) : Option (ℤ × List Char) :=
  (parseTwoDigits r).bind (fun h =>
    (parseTwoDigits (dropColonWs h.2)).map (fun m =>
      ((if neg then -1 else 1) * ((h.1 * 3600 + m.1 * 60 : ℕ) : ℤ), m.2)))

def parseTzItem (s0 : List Char) : Option (ℤ × List Char) :=
  match trimLeftWs s0 with
  | [] => none
  | c :: r =>
    if c = '+' then tzItemCore false r
    else if c = '-' then tzItemCore true r
    else none

def isLeapYear (y : ℤ) : Bool := (y % 4 == 0 && y % 100 != 0) || y % 400 == 0

def daysInMonth (y : ℤ) (m : ℕ) : ℕ :=
  if m = 2 then (if isLeapYear y then 29 else 28)
  else if m = 4 ∨ m = 6 ∨ m = 9 ∨ m = 11 then 30
  else 31

/-- `Parsed::to_datetime`: calendar/time/offset validation and the leap-second
rule for `second = 60`. -/
def mkDateTime (y mo d h mi sec : ℤ) (nano : ℕ) (off : ℤ) : Option CfDateTime :=
  if -262144 ≤ y ∧ y ≤ 262143 ∧
     1 ≤ mo ∧ mo ≤ 12 ∧ 1 ≤ d ∧ d ≤ (daysInMonth y mo.toNat : ℤ) ∧
     0 ≤ h ∧ h < 24 ∧ 0 ≤ mi ∧ mi < 60 ∧ 0 ≤ sec ∧ sec ≤ 60 ∧
     -86400 < off ∧ off < 86400 then
    if sec = 60 then
      some ⟨y, mo.toNat, d.toNat, h.toNat, mi.toNat, 59, nano + 1000000000, off⟩
    else
      some ⟨y, mo.toNat, d.toNat, h.toNat, mi.toNat, sec.toNat, nano, off⟩
  else none

/-- chrono `DateTime::parse_from_str` with the fixed layout
`"%Y-%m-%dT%H:%M:%S%.f%z"`: run the items in order, require the input to be
fully consumed, then validate. -/
def chronoParse (s : List Char) : Option CfDateTime := do
  let (y, s) ← parseNumItem 4 true s
  let s ← parseLit '-' s
  let (mo, s) ← parseNumItem 2 false s
  let s ← parseLit '-' s
  let (d, s) ← parseNumItem 2 false s
  let s ← parseLit 'T' s
  let (h, s) ← parseNumItem 2 false s
  let s ← parseLit ':' s
  let (mi, s) ← parseNumItem 2 false s
  let s ← parseLit ':' s
  let (sec, s) ← parseNumItem 2 false s
  let (nano, s) ← parseNanoItem s
  let (off, s) ← parseTzItem s
  if s = [] then mkDateTime y mo d h mi sec nano off else none

/-! ## `lib.rs`: the line grammar -/

inductive Component where
  | API | STAGING | ROUTER | LOGGREGATOR | APPLICATION | SSH | CELL | INVALID
deriving DecidableEq, Repr

structure ComponentInfo where
  name : Component
  index : ℕ
deriving DecidableEq, Repr

inductive ComponentInfoValid where
  | Valid (info : ComponentInfo)
  | Invalid (text : List Char)
deriving DecidableEq, Repr

inductive Channel where
  | STDOUT | STDERR | INVALID
deriving DecidableEq, Repr

inductive ChannelValid where
  | Valid (c : Channel)
  | Invalid (text : List Char)
deriving DecidableEq, Repr

structure CfAppLogEntry where
  timestamp : CfDateTime
  component : ComponentInfoValid
  channel : ChannelValid
  message : Option (List Char)
deriving DecidableEq, Repr

/-- `parse_date` (lib.rs:50-57): `map_res!(take_until!(" "), parse_from_str)`;
a chrono failure is a recoverable `MapRes` error. -/
def parse_date (s : List Char) : PResult CfDateTime :=
  match takeUntilChar ' ' s with
  | .ok rest cap =>
    match chronoParse cap with
    | some dt => .ok rest dt
    | none => .err
  | .err => .err
  | .inc => .inc

/-- `parse_component_name` (lib.rs:59-69). -/
def parse_component_name : List Char → PResult Component :=
  palt (ptagV ['A', 'P', 'P'] .APPLICATION)
    (palt (ptagV ['A', 'P', 'I'] .API)
      (palt (ptagV ['S', 'T', 'G'] .STAGING)
        (palt (ptagV ['R', 'T', 'R'] .ROUTER)
          (palt (ptagV ['L', 'G', 'R'] .LOGGREGATOR)
            (palt (ptagV ['S', 'S', 'H'] .SSH)
              (ptagV ['C', 'E', 'L', 'L'] .CELL))))))

/-- `str::parse::<u32>` as used by nom `parse_to!(u32)`: optional leading `+`,
at least one digit, value below 2^32. -/
def parseIndexU32 (s : List Char) : Option ℕ :=
  let t := match s with | '+' :: r => r | _ => s
  if t = [] then none
  else if t.all (fun c => c.isDigit) then
    let v := t.foldl (fun a c => a * 10 + digitVal c) 0
    if v < 2 ^ 32 then some v else none
  else none

/-- `flat_map!(take_until!("]"), parse_to!(u32))` (lib.rs:78,90). -/
def pIndex (s : List Char) : PResult ℕ :=
  match takeUntilChar ']' s with
  | .ok rest cap =>
    match parseIndexU32 cap with
    | some v => .ok rest v
    | none => .err
  | .err => .err
  | .inc => .inc

/-- First alternative of `parse_component` (lib.rs:73-82): `[NAME/INDEX]`. -/
def compBranch1 : List Char → PResult ComponentInfoValid :=
  pbind (ptag ['[']) fun _ =>
  pbind parse_component_name fun name =>
  pbind (ptag ['/']) fun _ =>
  pbind pIndex fun index =>
  pbind (ptag [']']) fun _ =>
  fun rest => .ok rest (.Valid ⟨name, index⟩)

/-- Second alternative (lib.rs:83-94): `[NAME/…/…/INDEX]` with up to two
skipped `/`-delimited segments. -/
def compBranch2 : List Char → PResult ComponentInfoValid :=
  pbind (ptag ['[']) fun _ =>
  pbind parse_component_name fun name =>
  pbind (ptag ['/']) fun _ =>
  pbind (pOpt (takeUntilConsumeChar '/')) fun _ =>
  pbind (pOpt (takeUntilConsumeChar '/')) fun _ =>
  pbind pIndex fun index =>
  pbind (ptag [']']) fun _ =>
  fun rest => .ok rest (.Valid ⟨name, index⟩)

/-- Third alternative (lib.rs:95-102): the whole bracket interior, verbatim. -/
def compBranch3 : List Char → PResult ComponentInfoValid :=
  pbind (ptag ['[']) fun _ =>
  pbind (takeUntilChar ']') fun cap =>
  pbind (ptag [']']) fun _ =>
  fun rest => .ok rest (.Invalid cap)

/-- `parse_component` (lib.rs:71-104). -/
def parse_component : List Char → PResult ComponentInfoValid :=
  palt compBranch1 (palt compBranch2 compBranch3)

/-- `parse_channel` (lib.rs:106-111). -/
def parse_channel : List Char → PResult ChannelValid :=
  palt (ptagV ['O', 'U', 'T'] (.Valid .STDOUT)) (ptagV ['E', 'R', 'R'] (.Valid .STDERR))

/-- `parse_message` (lib.rs:115-121): consume everything; `None` for empty
input, never `Some ""`. -/
def parse_message (s : List Char) : PResult (Option (List Char)) :=
  match s with
  | [] => .ok [] none
  | c :: cs => .ok [] (some (c :: cs))

/-- Line 131 of lib.rs: `alt!(not!(complete!(non_empty)) => {|_| ""} | tag!(" "))`:
at end of input succeed consuming nothing, otherwise require one space. -/
def psep (s : List Char) : PResult Unit :=
  match s with
  | [] => .ok [] ()
  | c :: cs => if c = ' ' then .ok cs () else .err

/-- `parse_cf_app_log` (lib.rs:123-142). -/
def parse_cf_app_log : List Char → PResult CfAppLogEntry :=
  pbind pspaces fun _ =>
  pbind parse_date fun timestamp =>
  pbind (ptag [' ']) fun _ =>
  pbind parse_component fun component =>
  pbind (ptag [' ']) fun _ =>
  pbind parse_channel fun channel =>
  pbind psep fun _ =>
  pbind parse_message fun message =>
  fun rest => .ok rest ⟨timestamp, component, channel, message⟩

/-! ## `main.rs`: the classifier

`process_file` reads lines; per line, `parse_line` strips ANSI escapes and
UTF-8-decodes (its `Err` case), then runs `parse_cf_app_log`, returning
`Ok(true)` on a parse and `Ok(false)` on a parse failure.  The loop at
lines 79-93 matches `Ok(_log)` — which covers BOTH `Ok(true)` and
`Ok(false)` — so each per-line outcome is modelled as an `Option Bool`
(`some b` for `Ok(b)`, `none` for `Err(_)`), and the loop counts every
`some _` line as matching, exactly as the source does. -/

/-- The scan loop of `process_file` (main.rs:79-93), starting from the tally
`(total, matching)`: every `Ok(_)` line increments both counters (and breaks
when `one_line_match` is set); an `Err(_)` line increments only the total. -/
def processLines (olm : Bool) (total matching : ℕ) : List (Option Bool) → ℕ × ℕ
  | [] => (total, matching)
  | r :: rest =>
    match r with
    | some _ =>
      if olm then (total + 1, matching + 1)
      else processLines olm (total + 1) (matching + 1) rest
    | none => processLines olm (total + 1) matching rest

/-! `show_results` computes
`(matching as f64 / total as f64 * 100.0).floor()` in IEEE binary64.  A
nonnegative double is modelled exactly as a pair `(sig, e) : ℕ × ℤ` denoting
the value `sig · 2 ^ (e - 52)`; `flR a b` rounds the exact ratio `a / b` to 53
significant bits (round to nearest, ties to even), which is precisely IEEE
correct rounding for normal results.  Overflow and subnormals are not
modelled: every value arising here is 0 or lies in `[2^-64, 100·2^64]`, far
inside the normal range (usize inputs are below 2^64). -/

/-- Fuel-driven binary logarithm (structurally recursive so that it reduces
in the kernel; agrees with `Nat.log2` whenever the fuel is at least `n`). -/
def log2Aux : ℕ → ℕ → ℕ
  | 0, _ => 0
  | fuel + 1, n => if 2 ≤ n then log2Aux fuel (n / 2) + 1 else 0

def natLog2 (n : ℕ) : ℕ := log2Aux n n

/-- Is `a / b ≥ 2 ^ e` (for naturals `a`, `b > 0`)? -/
def pow2ge (a b : ℕ) (e : ℤ) : Bool :=
  if 0 ≤ e then decide (b * 2 ^ e.toNat ≤ a) else decide (b ≤ a * 2 ^ (-e).toNat)

/-- Round the ratio `a / b` (with `b > 0`) to the nearest binary64 value,
ties to even: the result `(sig, e)` denotes `sig · 2 ^ (e - 52)`. -/
def flR (a b : ℕ) : ℕ × ℤ :=
  let e0 : ℤ := (natLog2 a : ℤ) - (natLog2 b : ℤ)
  let e : ℤ := if pow2ge a b e0 then e0 else e0 - 1
  let k : ℤ := 52 - e
  let num : ℕ := a * 2 ^ (max k 0).toNat
  let den : ℕ := b * 2 ^ (max (-k) 0).toNat
  let d : ℕ := num / den
  let r : ℕ := num % den
  let m : ℕ :=
    if 2 * r < den then d
    else if den < 2 * r then d + 1
    else if d % 2 = 0 then d else d + 1
  (m, e)

/-- `usize as f64` (exact whenever the input is below 2^53). -/
def flNat (n : ℕ) : ℕ × ℤ := flR n 1

/-- IEEE division of two nonnegative doubles: correctly round the exact
quotient `(x.1 · 2 ^ (x.2 - 52)) / (y.1 · 2 ^ (y.2 - 52))`. -/
def fdiv (x y : ℕ × ℤ) : ℕ × ℤ :=
  flR (x.1 * 2 ^ (max (x.2 - y.2) 0).toNat) (y.1 * 2 ^ (max (y.2 - x.2) 0).toNat)

/-- IEEE multiplication of a nonnegative double by the exact constant
`100.0`: correctly round the exact product. -/
def fmul100 (x : ℕ × ℤ) : ℕ × ℤ :=
  flR (x.1 * 100 * 2 ^ (max (x.2 - 52) 0).toNat) (2 ^ (max (52 - x.2) 0).toNat)

/-- `f64::floor` of a nonnegative double, as a natural number (exact). -/
def ffloor (x : ℕ × ℤ) : ℕ :=
  if 52 ≤ x.2 then x.1 * 2 ^ (x.2 - 52).toNat else x.1 / 2 ^ (52 - x.2).toNat

/-- Exact comparison `(n : f64) >= x` for a nonnegative integer-valued double
`n` and a nonnegative double `x` (f64 comparison is exact on values). -/
def geF64 (n : ℕ) (x : ℕ × ℤ) : Bool :=
  decide (x.1 * 2 ^ (max (x.2 - 52) 0).toNat ≤ n * 2 ^ (max (52 - x.2) 0).toNat)

/-- `percentage_matching` (main.rs:102-106):
`(matching as f64 / total as f64 * 100.0).floor()` when `total > 0`, else 0;
each `as f64` conversion and each arithmetic operation rounds. -/
def percentage_matching (total matching : ℕ) : ℕ :=
  if 0 < total then ffloor (fmul100 (fdiv (flNat matching) (flNat total)))
  else 0

/-- The classification decision of `show_results` (main.rs:112-113):
`percentage_matching >= trigger_percentage as f64 || (matching > 0 && one_line_match)`. -/
def fileMatches (trigger : ℕ) (olm : Bool) (total matching : ℕ) : Bool :=
  geF64 (percentage_matching total matching) (flNat trigger) ||
    (decide (0 < matching) && olm)

/-- `show_results`' exit code (main.rs:114-126): 0 when classified as a CF
application log, 1 otherwise. -/
def show_results (trigger : ℕ) (olm : Bool) (total matching : ℕ) : ℤ :=
  if fileMatches trigger olm total matching then 0 else 1

/-! ## Fixtures and derived notions used by the statements -/

/-- The first whitespace-delimited token of a string (what the spec calls "the
token in the channel position"). -/
def firstToken (s : List Char) : List Char := s.takeWhile (fun c => c != ' ')

/-- The recognized component abbreviations, in the order `alt!` tries them
(lib.rs:60-68). -/
def componentTokens : List (List Char) :=
  [['A', 'P', 'P'], ['A', 'P', 'I'], ['S', 'T', 'G'], ['R', 'T', 'R'],
   ['L', 'G', 'R'], ['S', 'S', 'H'], ['C', 'E', 'L', 'L']]

/-- A fixed valid line prefix (timestamp, `[RTR/0]` component, separating
spaces) used to place arbitrary text in the channel position. -/
def rtrLinePre : List Char := "2021-09-28T17:00:09.36+0900 [RTR/0] ".toList

def rtrTs : CfDateTime := ⟨2021, 9, 28, 17, 0, 9, 360000000, 32400⟩

/-- `parse_cf_app_log` specialised past the fields that `rtrLinePre` settles:
what remains of the `do_parse!` chain from the channel field on. -/
def afterChannelRTR : List Char → PResult CfAppLogEntry :=
  pbind parse_channel fun channel =>
  pbind psep fun _ =>
  pbind parse_message fun message =>
  fun rest => .ok rest ⟨rtrTs, .Valid ⟨.ROUTER, 0⟩, channel, message⟩

/-- The separator-plus-message tail of the grammar (lib.rs lines 131-132). -/
def msgStage : List Char → PResult (Option (List Char)) :=
  pbind psep fun _ => parse_message

def apiLine : List Char := "2021-09-28T17:00:09.36+0900 [API/3] ERR boom".toList

def apiEntry : CfAppLogEntry :=
  ⟨⟨2021, 9, 28, 17, 0, 9, 360000000, 32400⟩, .Valid ⟨.API, 3⟩, .Valid .STDERR,
    some "boom".toList⟩

/-! Renderings of valid timestamp strings of the layout
`%Y-%m-%dT%H:%M:%S%.f%z`, for quantifying over "every valid timestamp string
matching the layout". -/

def dChar (d : ℕ) : Char := Char.ofNat (48 + d)

def pad2d (n : ℕ) : List ℕ := [n / 10, n % 10]

def pad4d (n : ℕ) : List ℕ := [n / 1000, n / 100 % 10, n / 10 % 10, n % 10]

def pad2 (n : ℕ) : List Char := (pad2d n).map dChar

def pad4 (n : ℕ) : List Char := (pad4d n).map dChar

/-- Does the string start with an ASCII digit? -/
def headIsDigit : List Char → Bool
  | [] => false
  | c :: _ => c.isDigit

/-- The abstract fields of a timestamp string: date, time, an optional list of
fractional-second digits (empty = no dot), and a signed `±HHMM` offset. -/
structure TsParts where
  y : ℕ
  mo : ℕ
  d : ℕ
  h : ℕ
  mi : ℕ
  s : ℕ
  frac : List ℕ
  offNeg : Bool
  offH : ℕ
  offM : ℕ

def renderTs (p : TsParts) : List Char :=
  pad4 p.y ++ '-' :: pad2 p.mo ++ '-' :: pad2 p.d ++ 'T' :: pad2 p.h ++
    ':' :: pad2 p.mi ++ ':' :: pad2 p.s ++
    (if p.frac = [] then [] else '.' :: p.frac.map dChar) ++
    (if p.offNeg then '-' else '+') :: (pad2 p.offH ++ pad2 p.offM)

/-- Validity of the abstract fields: a real calendar date, a real time of day,
digit entries below 10, and an offset within ±23:59. -/
def validTs (p : TsParts) : Prop :=
  p.y ≤ 9999 ∧ 1 ≤ p.mo ∧ p.mo ≤ 12 ∧ 1 ≤ p.d ∧ p.d ≤ daysInMonth (p.y : ℤ) p.mo ∧
    p.h ≤ 23 ∧ p.mi ≤ 59 ∧ p.s ≤ 59 ∧ (∀ dg ∈ p.frac, dg < 10) ∧
    p.offH ≤ 23 ∧ p.offM ≤ 59

def digitsVal (acc : ℕ) (ds : List ℕ) : ℕ := ds.foldl (fun a d => a * 10 + d) acc

/-- The nanosecond value chrono assigns to a fractional-digit list: the first
nine digits are significant, the rest only consumed. -/
def tsNano (frac : List ℕ) : ℕ :=
  digitsVal 0 (frac.take 9) * 10 ^ (9 - min frac.length 9)

def tsOffset (p : TsParts) : ℤ :=
  (if p.offNeg then -1 else 1) * ((p.offH * 3600 + p.offM * 60 : ℕ) : ℤ)

def tsValue (p : TsParts) : CfDateTime :=
  ⟨p.y, p.mo, p.d, p.h, p.mi, p.s, tsNano p.frac, tsOffset p⟩

/-! ## Helper lemmas -/

theorem pbind_ok {α β : Type} {p : List Char → PResult α} {f : α → List Char → PResult β}
    {s r : List Char} {v : β} (h : pbind p f s = .ok r v) :
    ∃ s₁ v₁, p s = .ok s₁ v₁ ∧ f v₁ s₁ = .ok r v := by
  unfold pbind at h
  cases hp : p s with
  | ok s₁ v₁ => rw [hp] at h; exact ⟨s₁, v₁, rfl, h⟩
  | err => rw [hp] at h; exact absurd h (by simp)
  | inc => rw [hp] at h; exact absurd h (by simp)

theorem parse_message_rest {s r : List Char} {m : Option (List Char)}
    (h : parse_message s = .ok r m) : r = [] := by
  cases s with
  | nil => simp only [parse_message] at h; injection h with h1 _; exact h1.symm
  | cons c cs => simp only [parse_message] at h; injection h with h1 _; exact h1.symm

theorem processLines_mono (olm : Bool) (lines : List (Option Bool)) :
    ∀ t m, t ≤ (processLines olm t m lines).1 ∧ m ≤ (processLines olm t m lines).2 := by
  induction lines with
  | nil => intro t m; simp [processLines]
  | cons r rest ih =>
    intro t m
    cases r with
    | some b =>
      cases olm with
      | true => simp [processLines]
      | false =>
        have hr := ih (t + 1) (m + 1)
        simp only [processLines, Bool.false_eq_true, if_false]
        omega
    | none =>
      have hr := ih (t + 1) m
      simp only [processLines]
      omega

theorem processLines_le (olm : Bool) (lines : List (Option Bool)) :
    ∀ t m, m ≤ t → (processLines olm t m lines).2 ≤ (processLines olm t m lines).1 := by
  induction lines with
  | nil => intro t m h; simpa [processLines] using h
  | cons r rest ih =>
    intro t m h
    cases r with
    | some b =>
      cases olm with
      | true =>
        simp only [processLines, if_true]
        omega
      | false =>
        have hr := ih (t + 1) (m + 1) (by omega)
        simp only [processLines, Bool.false_eq_true, if_false]
        omega
    | none =>
      have hr := ih (t + 1) m (by omega)
      simp only [processLines]
      omega

/-! ## Claims -/

/-- C5 (confirmed): the line
`"2021-09-28T17:00:09.36+0900 [APP/PROC/WEB/0] OUT <payload>"` parses to a
log entry with timestamp 2021-09-28 17:00:09.360 at offset +09:00 (32400 s),
recognized component APPLICATION with index 0 (the middle segments discarded),
channel STDOUT, and message exactly `"<payload>"`, consuming the whole line. -/
theorem c5_end_to_end :
    parse_cf_app_log "2021-09-28T17:00:09.36+0900 [APP/PROC/WEB/0] OUT <payload>".toList =
      .ok [] ⟨⟨2021, 9, 28, 17, 0, 9, 360000000, 32400⟩, .Valid ⟨.APPLICATION, 0⟩,
        .Valid .STDOUT, some "<payload>".toList⟩ := by decide

/-- C8 (code-bug evidence): with `one_line_match` set and the per-line
outcomes [grammar failure, grammar success], the scan stops after the first
line already — the `Ok(_log)` arm of `process_file` also matches `Ok(false)`,
so a line that failed the grammar counts as a match and triggers the break —
giving the tally (1, 1), not the (2, 1) the claim requires. -/
theorem c8_stops_at_first_line :
    processLines true 0 0 [some false, some true] = (1, 1) ∧
      ((1, 1) : ℕ × ℕ) ≠ (2, 1) := by decide

/-- C9 (confirmed): for every scan, the tally satisfies
`matching_lines ≤ total_lines` throughout, both counters only grow, and each
consumed line adds exactly one to the total and zero or one to the matching
count. -/
theorem c9_tally_invariant :
    ∀ (olm : Bool) (t m : ℕ) (lines : List (Option Bool)),
      (m ≤ t → (processLines olm t m lines).2 ≤ (processLines olm t m lines).1) ∧
      (t ≤ (processLines olm t m lines).1 ∧ m ≤ (processLines olm t m lines).2) ∧
      (∀ r rest, ∃ j, j ≤ 1 ∧
        (processLines olm t m (r :: rest) = processLines olm (t + 1) (m + j) rest ∨
          processLines olm t m (r :: rest) = (t + 1, m + j))) := by
  intro olm t m lines
  refine ⟨fun h => processLines_le olm lines t m h, processLines_mono olm lines t m, ?_⟩
  intro r rest
  cases r with
  | some b =>
    by_cases holm : olm = true
    · exact ⟨1, by omega, Or.inr (by simp [processLines, holm])⟩
    · exact ⟨1, by omega, Or.inl (by simp [processLines, holm])⟩
  | none => exact ⟨0, by omega, Or.inl (by simp [processLines])⟩

theorem c9_tally_invariant_w :
    (processLines false 0 0 [some true, none]).2 ≤
      (processLines false 0 0 [some true, none]).1 :=
  (c9_tally_invariant false 0 0 [some true, none]).1 (Nat.le_refl 0)

/-- C10 (confirmed): whenever the full-line parser succeeds, the remaining
input is empty — the message field consumes the entire rest of the line. -/
theorem c10_no_leftover : ∀ (s r : List Char) (e : CfAppLogEntry),
    parse_cf_app_log s = .ok r e → r = [] := by
  intro s r e h
  unfold parse_cf_app_log at h
  obtain ⟨s1, v1, _, h⟩ := pbind_ok h
  obtain ⟨s2, v2, _, h⟩ := pbind_ok h
  obtain ⟨s3, v3, _, h⟩ := pbind_ok h
  obtain ⟨s4, v4, _, h⟩ := pbind_ok h
  obtain ⟨s5, v5, _, h⟩ := pbind_ok h
  obtain ⟨s6, v6, _, h⟩ := pbind_ok h
  obtain ⟨s7, v7, _, h⟩ := pbind_ok h
  obtain ⟨s8, v8, hmsg, h⟩ := pbind_ok h
  injection h with h1 _
  rw [← h1]
  exact parse_message_rest hmsg

theorem c10_no_leftover_w :
    parse_cf_app_log apiLine = .ok [] apiEntry ∧ ([] : List Char) = [] :=
  ⟨by decide, c10_no_leftover apiLine [] apiEntry (by decide)⟩

/-- C1 (counterexample): with 57 matching lines out of 100 the program
reports 56 percent — `57.0 / 100.0 * 100.0` rounds to 56.99999999999999289
in binary64 and its floor is 56 — while the floor of the exact rational
`57 / 100 * 100` is 57. -/
theorem c1_cx_float_floor :
    percentage_matching 100 57 = 56 ∧ ⌊(57 : ℚ) / 100 * 100⌋ = 57 ∧ (56 : ℕ) ≠ 57 :=
  ⟨by decide, by norm_num, by decide⟩

/-- C2 (counterexample): on an empty line sequence the tally and percentage
are zero as claimed, but with `trigger_percentage = 0` — inside the claimed
0-100 range — the verdict is TRUE (`0.0 >= 0.0`), not false. -/
theorem c2_cx_trigger_zero :
    processLines false 0 0 [] = (0, 0) ∧ percentage_matching 0 0 = 0 ∧
      fileMatches 0 false 0 0 = true := by decide

/-- C3 (counterexample): `"[APP/X]"` is well-bracketed and its interior
matches neither structured form, yet `parse_component` does NOT produce an
unrecognized component: the second alternative's `take_until_and_consume!("/")`
finds no `/` and reports `Incomplete`, which aborts `alt!` before the fallback
branch, so the line is rejected. -/
theorem c3_cx_incomplete :
    (']' ∉ "APP/X".toList) ∧ parse_component "[APP/X]".toList = .inc := by decide

/-- C4 (counterexample): the valid timestamp string
`"2021-09-28T11:58:42.1234+0900"` parses with nanosecond field 123400000,
which is not a whole number of milliseconds — fractional seconds are kept at
nanosecond resolution, not truncated or rounded to millisecond precision. -/
theorem c4_cx_nanosecond :
    parse_date "2021-09-28T11:58:42.1234+0900 ".toList =
      .ok " ".toList ⟨2021, 9, 28, 11, 58, 42, 123400000, 32400⟩ ∧
    123400000 % 1000000 ≠ 0 := by decide

theorem log2Aux_eq : ∀ (fuel n : ℕ), n ≤ fuel → log2Aux fuel n = Nat.log2 n := by
  intro fuel
  induction fuel with
  | zero =>
    intro n h
    have hn : n = 0 := by omega
    subst hn
    rw [Nat.log2]
    simp [log2Aux]
  | succ f ih =>
    intro n h
    by_cases h2 : 2 ≤ n
    · have hstep : log2Aux (f + 1) n = log2Aux f (n / 2) + 1 := by simp [log2Aux, h2]
      rw [hstep, ih (n / 2) (by omega)]
      conv_rhs => rw [Nat.log2]
      simp [h2]
    · rw [Nat.log2]
      simp [log2Aux, h2]

theorem natLog2_eq (n : ℕ) : natLog2 n = Nat.log2 n := log2Aux_eq n n (Nat.le_refl n)

/-- Conversion `usize as f64` is exact below 2^53: the significand is the
input shifted to 53 bits and the exponent its binary logarithm. -/
theorem flNat_exact (n : ℕ) (h0 : 0 < n) (h53 : n < 2 ^ 53) :
    flNat n = (n * 2 ^ (52 - natLog2 n), (natLog2 n : ℤ)) := by
  have hA : 2 ^ natLog2 n ≤ n := by
    rw [natLog2_eq]; exact Nat.log2_self_le (by omega)
  have hB : natLog2 n ≤ 52 := by
    rw [natLog2_eq]
    have := (Nat.log2_lt (show n ≠ 0 by omega)).mpr h53
    omega
  have hn1 : natLog2 1 = 0 := rfl
  have hge : pow2ge n 1 ((natLog2 n : ℤ)) = true := by
    unfold pow2ge
    rw [if_pos (Int.natCast_nonneg _)]
    simp only [Int.toNat_natCast, one_mul]
    exact decide_eq_true hA
  have hmaxk : max ((52 : ℤ) - (natLog2 n : ℤ)) 0 = (52 : ℤ) - (natLog2 n : ℤ) :=
    max_eq_left (by omega)
  have hmaxnk : max (-((52 : ℤ) - (natLog2 n : ℤ))) 0 = 0 :=
    max_eq_right (by omega)
  have hk : ((52 : ℤ) - (natLog2 n : ℤ)).toNat = 52 - natLog2 n := by omega
  simp only [flNat, flR, hn1, Nat.cast_zero, sub_zero, hge, if_true, hmaxk, hmaxnk, hk,
    Int.toNat_zero, pow_zero, one_mul, mul_one, Nat.div_one, Nat.mod_one]
  rw [if_pos (by norm_num : 2 * 0 < 1)]

/-- Dividing a positive value by itself is exact: `flR m m` is exactly 1. -/
theorem flR_self (m : ℕ) (hm : 0 < m) : flR m m = (2 ^ 52, 0) := by
  have hge : pow2ge m m (0 : ℤ) = true := by
    unfold pow2ge
    rw [if_pos le_rfl]
    norm_num
  have hmaxk : max ((52 : ℤ) - 0) 0 = (52 : ℤ) := by norm_num
  have hmaxnk : max (-((52 : ℤ) - 0)) 0 = 0 := by norm_num
  have h1 : ((52 : ℤ) ⊔ 0) = 52 := by norm_num
  have h2 : ((-52 : ℤ) ⊔ 0) = 0 := by norm_num
  simp only [flR, sub_self, hge, if_true, sub_zero, h1, h2, Int.toNat_zero,
    Int.toNat_ofNat, pow_zero, mul_one]
  rw [Nat.mul_mod_right, Nat.mul_div_cancel_left _ hm]
  rw [if_pos (by omega : 2 * 0 < m)]
  rfl

/-- C1 (amended): the percentage is the floor of the IEEE binary64 evaluation
of `matching / total * 100` — which can fall one short of the exact rational
floor (see the counterexample at 57/100) — it is 0 when `total = 0`, it is
exactly 100 whenever all lines match, and the file is classified as matching
exactly when this percentage is at least `trigger_percentage` or
(`matching > 0` and `stop_on_first_match`). -/
theorem c1_amended_float_percentage :
    ∀ (total matching trigger : ℕ) (olm : Bool),
      (total = 0 → percentage_matching total matching = 0) ∧
      (fileMatches trigger olm total matching = true ↔
        (geF64 (percentage_matching total matching) (flNat trigger) = true ∨
          (0 < matching ∧ olm = true))) ∧
      (0 < total → total < 2 ^ 53 → percentage_matching total total = 100) := by
  intro total matching trigger olm
  refine ⟨?_, ?_, ?_⟩
  · intro h; subst h; simp [percentage_matching]
  · unfold fileMatches
    simp [Bool.or_eq_true, Bool.and_eq_true, decide_eq_true_iff]
  · intro h0 h53
    have hx := flNat_exact total h0 h53
    have hpos : 0 < (flNat total).1 := by
      rw [hx]
      positivity
    unfold percentage_matching
    rw [if_pos h0]
    have hdiv : fdiv (flNat total) (flNat total) = (2 ^ 52, 0) := by
      unfold fdiv
      rw [sub_self]
      simp only [max_self, Int.toNat_zero, pow_zero, mul_one]
      exact flR_self _ hpos
    rw [hdiv]
    decide

theorem c1_amended_float_percentage_w :
    percentage_matching 0 5 = 0 ∧ percentage_matching 4 4 = 100 :=
  ⟨(c1_amended_float_percentage 0 5 90 false).1 rfl,
   (c1_amended_float_percentage 4 4 90 false).2.2 (by norm_num) (by norm_num)⟩

/-- C2 (amended): an empty line sequence yields the tally (0, 0) and
percentage 0, and the verdict is false for every `trigger_percentage` from 1
to 100; with `trigger_percentage = 0`, however, the verdict is true, because
`0.0 >= 0.0` holds. -/
theorem c2_amended_empty_sequence :
    ∀ (trigger : ℕ) (olm : Bool),
      processLines olm 0 0 [] = (0, 0) ∧
      percentage_matching 0 0 = 0 ∧
      (1 ≤ trigger → trigger ≤ 100 → fileMatches trigger olm 0 0 = false) ∧
      fileMatches 0 olm 0 0 = true := by
  intro trigger olm
  refine ⟨rfl, rfl, ?_, ?_⟩
  · intro h1 h2
    have h53 : trigger < 2 ^ 53 := by
      have : (100 : ℕ) < 2 ^ 53 := by norm_num
      omega
    have hx := flNat_exact trigger (by omega) h53
    have hge : geF64 (percentage_matching 0 0) (flNat trigger) = false := by
      have hp : percentage_matching 0 0 = 0 := rfl
      have hc1 : (flNat trigger).1 = trigger * 2 ^ (52 - natLog2 trigger) := by rw [hx]
      have hc2 : (flNat trigger).2 = (natLog2 trigger : ℤ) := by rw [hx]
      rw [hp]
      unfold geF64
      rw [hc1, hc2, zero_mul]
      refine decide_eq_false ?_
      have hpos : 0 < trigger * 2 ^ (52 - natLog2 trigger) *
          2 ^ (max ((natLog2 trigger : ℤ) - 52) 0).toNat := by
        positivity
      omega
    unfold fileMatches
    rw [hge]
    simp
  · unfold fileMatches
    have hge : geF64 (percentage_matching 0 0) (flNat 0) = true := by decide
    rw [hge]
    simp

theorem c2_amended_empty_sequence_w :
    fileMatches 90 false 0 0 = false ∧ fileMatches 0 true 0 0 = true :=
  ⟨(c2_amended_empty_sequence 90 false).2.2.1 (by norm_num) (by norm_num),
   (c2_amended_empty_sequence 0 true).2.2.2⟩

theorem ptagAux_ok {t s r : List Char} {u : Unit} (h : ptagAux t s = .ok r u) :
    s = t ++ r := by
  induction t generalizing s with
  | nil =>
    simp only [ptagAux, PResult.ok.injEq] at h
    simpa using h.1
  | cons c ts ih =>
    cases s with
    | nil => exact absurd h (by simp [ptagAux])
    | cons x xs =>
      simp only [ptagAux] at h
      by_cases hx : x = c
      · rw [if_pos hx] at h
        subst hx
        simpa using ih h
      · rw [if_neg hx] at h
        exact absurd h (by simp)

theorem ptag_ok {t s r v : List Char} (h : ptag t s = .ok r v) : s = t ++ r := by
  unfold ptag at h
  cases h1 : ptagAux t s with
  | ok r1 u1 =>
    rw [h1] at h
    injection h with h2 _
    rw [← h2]
    exact ptagAux_ok h1
  | err => rw [h1] at h; exact absurd h (by simp)
  | inc => rw [h1] at h; exact absurd h (by simp)

theorem parse_channel_ok {s r : List Char} {v : ChannelValid}
    (h : parse_channel s = .ok r v) :
    s = ['O', 'U', 'T'] ++ r ∨ s = ['E', 'R', 'R'] ++ r := by
  unfold parse_channel palt ptagV at h
  cases h1 : ptag ['O', 'U', 'T'] s with
  | ok r1 v1 =>
    rw [h1] at h
    injection h with h2 _
    exact Or.inl (h2 ▸ ptag_ok h1)
  | err =>
    rw [h1] at h
    cases h2 : ptag ['E', 'R', 'R'] s with
    | ok r2 v2 =>
      rw [h2] at h
      injection h with h3 _
      exact Or.inr (h3 ▸ ptag_ok h2)
    | err => rw [h2] at h; exact absurd h (by simp)
    | inc => rw [h2] at h; exact absurd h (by simp)
  | inc => rw [h1] at h; exact absurd h (by simp)

theorem rtr_reach : ∀ s, parse_cf_app_log (rtrLinePre ++ s) = afterChannelRTR s :=
  fun _ => by rfl

/-- C7 (confirmed): when nothing, or only the single separating space,
follows the channel token, the parsed message is absent (`None`); a present
message is never the empty string; and the spec's example line without
payload parses with message absent. -/
theorem c7_message_absent :
    msgStage [] = .ok [] none ∧
    msgStage [' '] = .ok [] none ∧
    (∀ s r m, msgStage s = .ok r (some m) → m ≠ []) ∧
    parse_cf_app_log "2021-09-28T17:00:09.36+0900 [RTR/0] OUT".toList =
      .ok [] ⟨rtrTs, .Valid ⟨.ROUTER, 0⟩, .Valid .STDOUT, none⟩ := by
  refine ⟨rfl, rfl, ?_, by decide⟩
  intro s r m h
  obtain ⟨s₁, v₁, _, hmsg⟩ := pbind_ok h
  cases s₁ with
  | nil => simp [parse_message] at hmsg
  | cons c cs =>
    simp only [parse_message, PResult.ok.injEq, Option.some.injEq] at hmsg
    obtain ⟨_, h2⟩ := hmsg
    rw [← h2]
    simp

theorem c7_message_absent_w :
    msgStage " a".toList = .ok [] (some "a".toList) ∧ ("a".toList : List Char) ≠ [] :=
  ⟨rfl, c7_message_absent.2.2.1 " a".toList [] "a".toList rfl⟩

/-- C6 (confirmed): in the channel position `OUT` maps to STDOUT and `ERR`
to STDERR; with the valid `[RTR/0]` line prefix in front, any other token in
the channel position makes the whole line fail to parse (no
unrecognized-channel value is ever produced). -/
theorem c6_channel_tokens :
    (∀ r, parse_channel (['O', 'U', 'T'] ++ r) = .ok r (.Valid .STDOUT)) ∧
    (∀ r, parse_channel (['E', 'R', 'R'] ++ r) = .ok r (.Valid .STDERR)) ∧
    (∀ s, firstToken s ≠ ['O', 'U', 'T'] → firstToken s ≠ ['E', 'R', 'R'] →
      (parse_cf_app_log (rtrLinePre ++ s)).isOk = false) := by
  refine ⟨fun r => by rfl, fun r => by rfl, ?_⟩
  intro s hOUT hERR
  rw [rtr_reach s]
  unfold afterChannelRTR pbind
  cases hch : parse_channel s with
  | err => rfl
  | inc => rfl
  | ok r v =>
    rcases parse_channel_ok hch with hs | hs
    · subst hs
      cases r with
      | nil => exact absurd rfl hOUT
      | cons c cs =>
        by_cases hc : c = ' '
        · subst hc
          exact absurd rfl hOUT
        · have hsep : psep (c :: cs) = .err := by simp [psep, hc]
          simp [pbind, hsep, PResult.isOk]
    · subst hs
      cases r with
      | nil => exact absurd rfl hERR
      | cons c cs =>
        by_cases hc : c = ' '
        · subst hc
          exact absurd rfl hERR
        · have hsep : psep (c :: cs) = .err := by simp [psep, hc]
          simp [pbind, hsep, PResult.isOk]

theorem c6_channel_tokens_w :
    parse_channel (['O', 'U', 'T'] ++ " x".toList) = .ok " x".toList (.Valid .STDOUT) ∧
    parse_channel (['E', 'R', 'R'] ++ " y".toList) = .ok " y".toList (.Valid .STDERR) ∧
    (parse_cf_app_log (rtrLinePre ++ "FOO".toList)).isOk = false :=
  ⟨c6_channel_tokens.1 " x".toList, c6_channel_tokens.2.1 " y".toList,
   c6_channel_tokens.2.2 "FOO".toList (by decide) (by decide)⟩

theorem ptagAux_tagpre (t q : List Char) : ptagAux t (t ++ q) = .ok q () := by
  induction t with
  | nil => rfl
  | cons c ts ih => simp [ptagAux, ih]

theorem ptagAux_err (t : List Char) (rest : List Char) (ht : ']' ∉ t) :
    ∀ interior, ¬ t <+: interior → ptagAux t (interior ++ ']' :: rest) = .err := by
  induction t with
  | nil => intro interior hnp; exact absurd (List.nil_prefix) hnp
  | cons c ts ih =>
    intro interior hnp
    have hc : ']' ≠ c := fun h => ht (by rw [h]; exact List.mem_cons_self c ts)
    have hts : ']' ∉ ts := fun hm => ht (List.mem_cons_of_mem _ hm)
    cases interior with
    | nil =>
      simp only [List.nil_append, ptagAux]
      rw [if_neg hc]
    | cons x xs =>
      simp only [List.cons_append, ptagAux]
      by_cases hx : x = c
      · rw [if_pos hx]
        subst hx
        exact ih hts xs (fun hp => hnp (List.cons_prefix_cons.mpr ⟨rfl, hp⟩))
      · rw [if_neg hx]

theorem ptag_err (t interior rest : List Char) (ht : ']' ∉ t) (hnp : ¬ t <+: interior) :
    ptag t (interior ++ ']' :: rest) = .err := by
  unfold ptag
  rw [ptagAux_err t rest ht interior hnp]

theorem ptag_tagpre (t q : List Char) : ptag t (t ++ q) = .ok q t := by
  unfold ptag
  rw [ptagAux_tagpre]

theorem takeUntil_found (c : Char) (l rest : List Char) (hl : c ∉ l) :
    takeUntilChar c (l ++ c :: rest) = .ok (c :: rest) l := by
  induction l with
  | nil => simp [takeUntilChar]
  | cons x xs ih =>
    have hx : ¬ x = c := fun h => hl (by rw [← h]; exact List.mem_cons_self x xs)
    have ih' : takeUntilChar c (xs ++ c :: rest) = .ok (c :: rest) xs :=
      ih (fun hm => hl (List.mem_cons_of_mem _ hm))
    simp [takeUntilChar, hx, ih']

theorem slash_err_after (tok q rest : List Char)
    (hq : ¬ (tok ++ ['/']) <+: tok ++ q) : ptag ['/'] (q ++ ']' :: rest) = .err :=
  ptag_err ['/'] q rest (by decide)
    (fun hp => hq ((List.prefix_append_right_inj tok).mpr hp))

/-- On a well-bracketed input whose interior does not begin with a recognized
token followed by `/`, the `NAME` stage either fails outright or succeeds on a
token not followed by `/`, so both structured alternatives die before their
index field. -/
theorem pcn_slash (interior rest : List Char) (hbr : ']' ∉ interior)
    (H : ∀ tok ∈ componentTokens, ¬ (tok ++ ['/']) <+: interior) :
    (∃ nm tail, parse_component_name (interior ++ ']' :: rest) = .ok tail nm ∧
        ptag ['/'] tail = .err) ∨
      parse_component_name (interior ++ ']' :: rest) = .err := by
  by_cases hAPP : ['A', 'P', 'P'] <+: interior
  · obtain ⟨q, hq⟩ := hAPP
    subst hq
    refine Or.inl ⟨.APPLICATION, q ++ ']' :: rest, ?_,
      slash_err_after ['A', 'P', 'P'] q rest (H _ (by decide))⟩
    have e : ptag ['A', 'P', 'P'] ('A' :: 'P' :: 'P' :: (q ++ ']' :: rest)) =
        .ok (q ++ ']' :: rest) ['A', 'P', 'P'] :=
      ptag_tagpre ['A', 'P', 'P'] (q ++ ']' :: rest)
    simp [parse_component_name, palt, ptagV, e]
  · by_cases hAPI : ['A', 'P', 'I'] <+: interior
    · obtain ⟨q, hq⟩ := hAPI
      subst hq
      refine Or.inl ⟨.API, q ++ ']' :: rest, ?_,
        slash_err_after ['A', 'P', 'I'] q rest (H _ (by decide))⟩
      have e1 : ptag ['A', 'P', 'P'] ('A' :: 'P' :: 'I' :: (q ++ ']' :: rest)) = .err :=
        ptag_err ['A', 'P', 'P'] (['A', 'P', 'I'] ++ q) rest (by decide) hAPP
      have e : ptag ['A', 'P', 'I'] ('A' :: 'P' :: 'I' :: (q ++ ']' :: rest)) =
          .ok (q ++ ']' :: rest) ['A', 'P', 'I'] :=
        ptag_tagpre ['A', 'P', 'I'] (q ++ ']' :: rest)
      simp [parse_component_name, palt, ptagV, e1, e]
    · by_cases hSTG : ['S', 'T', 'G'] <+: interior
      · obtain ⟨q, hq⟩ := hSTG
        subst hq
        refine Or.inl ⟨.STAGING, q ++ ']' :: rest, ?_,
          slash_err_after ['S', 'T', 'G'] q rest (H _ (by decide))⟩
        have e1 : ptag ['A', 'P', 'P'] ('S' :: 'T' :: 'G' :: (q ++ ']' :: rest)) = .err :=
          ptag_err ['A', 'P', 'P'] (['S', 'T', 'G'] ++ q) rest (by decide) hAPP
        have e2 : ptag ['A', 'P', 'I'] ('S' :: 'T' :: 'G' :: (q ++ ']' :: rest)) = .err :=
          ptag_err ['A', 'P', 'I'] (['S', 'T', 'G'] ++ q) rest (by decide) hAPI
        have e : ptag ['S', 'T', 'G'] ('S' :: 'T' :: 'G' :: (q ++ ']' :: rest)) =
            .ok (q ++ ']' :: rest) ['S', 'T', 'G'] :=
          ptag_tagpre ['S', 'T', 'G'] (q ++ ']' :: rest)
        simp [parse_component_name, palt, ptagV, e1, e2, e]
      · by_cases hRTR : ['R', 'T', 'R'] <+: interior
        · obtain ⟨q, hq⟩ := hRTR
          subst hq
          refine Or.inl ⟨.ROUTER, q ++ ']' :: rest, ?_,
            slash_err_after ['R', 'T', 'R'] q rest (H _ (by decide))⟩
          have e1 : ptag ['A', 'P', 'P'] ('R' :: 'T' :: 'R' :: (q ++ ']' :: rest)) = .err :=
            ptag_err ['A', 'P', 'P'] (['R', 'T', 'R'] ++ q) rest (by decide) hAPP
          have e2 : ptag ['A', 'P', 'I'] ('R' :: 'T' :: 'R' :: (q ++ ']' :: rest)) = .err :=
            ptag_err ['A', 'P', 'I'] (['R', 'T', 'R'] ++ q) rest (by decide) hAPI
          have e3 : ptag ['S', 'T', 'G'] ('R' :: 'T' :: 'R' :: (q ++ ']' :: rest)) = .err :=
            ptag_err ['S', 'T', 'G'] (['R', 'T', 'R'] ++ q) rest (by decide) hSTG
          have e : ptag ['R', 'T', 'R'] ('R' :: 'T' :: 'R' :: (q ++ ']' :: rest)) =
              .ok (q ++ ']' :: rest) ['R', 'T', 'R'] :=
            ptag_tagpre ['R', 'T', 'R'] (q ++ ']' :: rest)
          simp [parse_component_name, palt, ptagV, e1, e2, e3, e]
        · by_cases hLGR : ['L', 'G', 'R'] <+: interior
          · obtain ⟨q, hq⟩ := hLGR
            subst hq
            refine Or.inl ⟨.LOGGREGATOR, q ++ ']' :: rest, ?_,
              slash_err_after ['L', 'G', 'R'] q rest (H _ (by decide))⟩
            have e1 : ptag ['A', 'P', 'P'] ('L' :: 'G' :: 'R' :: (q ++ ']' :: rest)) = .err :=
              ptag_err ['A', 'P', 'P'] (['L', 'G', 'R'] ++ q) rest (by decide) hAPP
            have e2 : ptag ['A', 'P', 'I'] ('L' :: 'G' :: 'R' :: (q ++ ']' :: rest)) = .err :=
              ptag_err ['A', 'P', 'I'] (['L', 'G', 'R'] ++ q) rest (by decide) hAPI
            have e3 : ptag ['S', 'T', 'G'] ('L' :: 'G' :: 'R' :: (q ++ ']' :: rest)) = .err :=
              ptag_err ['S', 'T', 'G'] (['L', 'G', 'R'] ++ q) rest (by decide) hSTG
            have e4 : ptag ['R', 'T', 'R'] ('L' :: 'G' :: 'R' :: (q ++ ']' :: rest)) = .err :=
              ptag_err ['R', 'T', 'R'] (['L', 'G', 'R'] ++ q) rest (by decide) hRTR
            have e : ptag ['L', 'G', 'R'] ('L' :: 'G' :: 'R' :: (q ++ ']' :: rest)) =
                .ok (q ++ ']' :: rest) ['L', 'G', 'R'] :=
              ptag_tagpre ['L', 'G', 'R'] (q ++ ']' :: rest)
            simp [parse_component_name, palt, ptagV, e1, e2, e3, e4, e]
          · by_cases hSSH : ['S', 'S', 'H'] <+: interior
            · obtain ⟨q, hq⟩ := hSSH
              subst hq
              refine Or.inl ⟨.SSH, q ++ ']' :: rest, ?_,
                slash_err_after ['S', 'S', 'H'] q rest (H _ (by decide))⟩
              have e1 : ptag ['A', 'P', 'P'] ('S' :: 'S' :: 'H' :: (q ++ ']' :: rest)) = .err :=
                ptag_err ['A', 'P', 'P'] (['S', 'S', 'H'] ++ q) rest (by decide) hAPP
              have e2 : ptag ['A', 'P', 'I'] ('S' :: 'S' :: 'H' :: (q ++ ']' :: rest)) = .err :=
                ptag_err ['A', 'P', 'I'] (['S', 'S', 'H'] ++ q) rest (by decide) hAPI
              have e3 : ptag ['S', 'T', 'G'] ('S' :: 'S' :: 'H' :: (q ++ ']' :: rest)) = .err :=
                ptag_err ['S', 'T', 'G'] (['S', 'S', 'H'] ++ q) rest (by decide) hSTG
              have e4 : ptag ['R', 'T', 'R'] ('S' :: 'S' :: 'H' :: (q ++ ']' :: rest)) = .err :=
                ptag_err ['R', 'T', 'R'] (['S', 'S', 'H'] ++ q) rest (by decide) hRTR
              have e5 : ptag ['L', 'G', 'R'] ('S' :: 'S' :: 'H' :: (q ++ ']' :: rest)) = .err :=
                ptag_err ['L', 'G', 'R'] (['S', 'S', 'H'] ++ q) rest (by decide) hLGR
              have e : ptag ['S', 'S', 'H'] ('S' :: 'S' :: 'H' :: (q ++ ']' :: rest)) =
                  .ok (q ++ ']' :: rest) ['S', 'S', 'H'] :=
                ptag_tagpre ['S', 'S', 'H'] (q ++ ']' :: rest)
              simp [parse_component_name, palt, ptagV, e1, e2, e3, e4, e5, e]
            · by_cases hCELL : ['C', 'E', 'L', 'L'] <+: interior
              · obtain ⟨q, hq⟩ := hCELL
                subst hq
                refine Or.inl ⟨.CELL, q ++ ']' :: rest, ?_,
                  slash_err_after ['C', 'E', 'L', 'L'] q rest (H _ (by decide))⟩
                have e1 : ptag ['A', 'P', 'P'] ('C' :: 'E' :: 'L' :: 'L' :: (q ++ ']' :: rest)) = .err :=
                  ptag_err ['A', 'P', 'P'] (['C', 'E', 'L', 'L'] ++ q) rest (by decide) hAPP
                have e2 : ptag ['A', 'P', 'I'] ('C' :: 'E' :: 'L' :: 'L' :: (q ++ ']' :: rest)) = .err :=
                  ptag_err ['A', 'P', 'I'] (['C', 'E', 'L', 'L'] ++ q) rest (by decide) hAPI
                have e3 : ptag ['S', 'T', 'G'] ('C' :: 'E' :: 'L' :: 'L' :: (q ++ ']' :: rest)) = .err :=
                  ptag_err ['S', 'T', 'G'] (['C', 'E', 'L', 'L'] ++ q) rest (by decide) hSTG
                have e4 : ptag ['R', 'T', 'R'] ('C' :: 'E' :: 'L' :: 'L' :: (q ++ ']' :: rest)) = .err :=
                  ptag_err ['R', 'T', 'R'] (['C', 'E', 'L', 'L'] ++ q) rest (by decide) hRTR
                have e5 : ptag ['L', 'G', 'R'] ('C' :: 'E' :: 'L' :: 'L' :: (q ++ ']' :: rest)) = .err :=
                  ptag_err ['L', 'G', 'R'] (['C', 'E', 'L', 'L'] ++ q) rest (by decide) hLGR
                have e6 : ptag ['S', 'S', 'H'] ('C' :: 'E' :: 'L' :: 'L' :: (q ++ ']' :: rest)) = .err :=
                  ptag_err ['S', 'S', 'H'] (['C', 'E', 'L', 'L'] ++ q) rest (by decide) hSSH
                have e : ptag ['C', 'E', 'L', 'L'] ('C' :: 'E' :: 'L' :: 'L' :: (q ++ ']' :: rest)) =
                    .ok (q ++ ']' :: rest) ['C', 'E', 'L', 'L'] :=
                  ptag_tagpre ['C', 'E', 'L', 'L'] (q ++ ']' :: rest)
                simp [parse_component_name, palt, ptagV, e1, e2, e3, e4, e5, e6, e]
              · refine Or.inr ?_
                have e1 : ptag ['A', 'P', 'P'] (interior ++ ']' :: rest) = .err :=
                  ptag_err ['A', 'P', 'P'] interior rest (by decide) hAPP
                have e2 : ptag ['A', 'P', 'I'] (interior ++ ']' :: rest) = .err :=
                  ptag_err ['A', 'P', 'I'] interior rest (by decide) hAPI
                have e3 : ptag ['S', 'T', 'G'] (interior ++ ']' :: rest) = .err :=
                  ptag_err ['S', 'T', 'G'] interior rest (by decide) hSTG
                have e4 : ptag ['R', 'T', 'R'] (interior ++ ']' :: rest) = .err :=
                  ptag_err ['R', 'T', 'R'] interior rest (by decide) hRTR
                have e5 : ptag ['L', 'G', 'R'] (interior ++ ']' :: rest) = .err :=
                  ptag_err ['L', 'G', 'R'] interior rest (by decide) hLGR
                have e6 : ptag ['S', 'S', 'H'] (interior ++ ']' :: rest) = .err :=
                  ptag_err ['S', 'S', 'H'] interior rest (by decide) hSSH
                have e7 : ptag ['C', 'E', 'L', 'L'] (interior ++ ']' :: rest) = .err :=
                  ptag_err ['C', 'E', 'L', 'L'] interior rest (by decide) hCELL
                simp [parse_component_name, palt, ptagV, e1, e2, e3, e4, e5, e6, e7]

/-- C3 (amended): for every well-bracketed component field whose interior does
not begin with a recognized component token followed by `/`, if the interior
matches neither structured form the parser produces an unrecognized component
carrying the entire bracket interior verbatim, consuming through the closing
bracket.  (When a recognized `NAME/` prefix IS present, the claim fails: the
skip-segments alternative can report `Incomplete` and reject the line — see
the counterexample `[APP/X]`.) -/
theorem c3_amended_fallback :
    ∀ (interior rest : List Char), ']' ∉ interior →
      (∀ tok ∈ componentTokens, ¬ (tok ++ ['/']) <+: interior) →
      parse_component ('[' :: (interior ++ ']' :: rest)) =
        .ok rest (.Invalid interior) := by
  intro interior rest hbr H
  have hbrk : ptag ['['] ('[' :: (interior ++ ']' :: rest)) =
      .ok (interior ++ ']' :: rest) ['['] := rfl
  have h3 : compBranch3 ('[' :: (interior ++ ']' :: rest)) =
      .ok rest (.Invalid interior) := by
    have htu : takeUntilChar ']' (interior ++ ']' :: rest) = .ok (']' :: rest) interior :=
      takeUntil_found ']' interior rest hbr
    have hcl : ptag [']'] (']' :: rest) = .ok rest [']'] := rfl
    simp [compBranch3, pbind, hbrk, htu, hcl]
  have h1 : compBranch1 ('[' :: (interior ++ ']' :: rest)) = .err := by
    rcases pcn_slash interior rest hbr H with ⟨nm, tail, hok, hsl⟩ | herr
    · simp [compBranch1, pbind, hbrk, hok, hsl]
    · simp [compBranch1, pbind, hbrk, herr]
  have h2 : compBranch2 ('[' :: (interior ++ ']' :: rest)) = .err := by
    rcases pcn_slash interior rest hbr H with ⟨nm, tail, hok, hsl⟩ | herr
    · simp [compBranch2, pbind, hbrk, hok, hsl]
    · simp [compBranch2, pbind, hbrk, herr]
  simp [parse_component, palt, h1, h2, h3]

theorem c3_amended_fallback_w :
    parse_component ('[' :: ("FOO/0".toList ++ ']' :: [])) =
      .ok [] (.Invalid "FOO/0".toList) :=
  c3_amended_fallback "FOO/0".toList [] (by decide) (by decide)

theorem dChar_isDigit {d : ℕ} (h : d < 10) : (dChar d).isDigit = true := by
  interval_cases d <;> decide

theorem digitVal_dChar {d : ℕ} (h : d < 10) : digitVal (dChar d) = d := by
  interval_cases d <;> decide

theorem dChar_ne {d : ℕ} (h : d < 10) :
    dChar d ≠ ' ' ∧ dChar d ≠ '-' ∧ dChar d ≠ '+' ∧ dChar d ≠ '.' ∧ dChar d ≠ ':' ∧
      (dChar d).isWhitespace = false ∧ ((dChar d) == ':') = false := by
  interval_cases d <;> decide

theorem scanDigits_stop (w acc : ℕ) (rest : List Char) (hr : headIsDigit rest = false) :
    scanDigits w acc rest = (0, acc, rest) := by
  cases rest with
  | nil => cases w <;> rfl
  | cons c cs =>
    simp only [headIsDigit] at hr
    cases w with
    | zero => rfl
    | succ w' => simp [scanDigits, hr]

theorem scanDigits_zero (acc : ℕ) (s : List Char) : scanDigits 0 acc s = (0, acc, s) := by
  cases s <;> rfl

theorem digitsVal_cons (acc d : ℕ) (ds : List ℕ) :
    digitsVal acc (d :: ds) = digitsVal (acc * 10 + d) ds := by
  simp [digitsVal]

theorem scanDigits_full (ds : List ℕ) (hds : ∀ x ∈ ds, x < 10) :
    ∀ (w acc : ℕ), ds.length ≤ w → ∀ (rest : List Char), headIsDigit rest = false →
      scanDigits w acc (ds.map dChar ++ rest) = (ds.length, digitsVal acc ds, rest) := by
  induction ds with
  | nil =>
    intro w acc _ rest hr
    simpa [digitsVal] using scanDigits_stop w acc rest hr
  | cons d ds ih =>
    intro w acc hw rest hr
    obtain ⟨w', rfl⟩ : ∃ w', w = w' + 1 := ⟨w - 1, by simp at hw; omega⟩
    have hd : d < 10 := hds d (List.mem_cons_self _ _)
    simp only [List.map_cons, List.cons_append, scanDigits, dChar_isDigit hd, if_true,
      List.append_eq]
    rw [ih (fun x hx => hds x (List.mem_cons_of_mem _ hx)) w'
      (acc * 10 + digitVal (dChar d)) (by simp at hw ⊢; omega) rest hr]
    simp [digitsVal_cons, digitVal_dChar hd]

theorem scanDigits_cap (w : ℕ) :
    ∀ (ds : List ℕ), (∀ x ∈ ds, x < 10) → w ≤ ds.length → ∀ (acc : ℕ) (rest : List Char),
      scanDigits w acc (ds.map dChar ++ rest) =
        (w, digitsVal acc (ds.take w), (ds.drop w).map dChar ++ rest) := by
  induction w with
  | zero =>
    intro ds _ _ acc rest
    simpa [digitsVal] using scanDigits_zero acc (ds.map dChar ++ rest)
  | succ w' ih =>
    intro ds hds hw acc rest
    cases ds with
    | nil => simp at hw
    | cons d ds' =>
      have hd : d < 10 := hds d (List.mem_cons_self _ _)
      simp only [List.map_cons, List.cons_append, scanDigits, dChar_isDigit hd, if_true,
        List.append_eq]
      rw [ih ds' (fun x hx => hds x (List.mem_cons_of_mem _ hx)) (by simp at hw; omega)
        (acc * 10 + digitVal (dChar d)) rest]
      simp [digitsVal_cons, digitVal_dChar hd]

theorem scanNumber_render (minW w : ℕ) (ds : List ℕ) (hds : ∀ x ∈ ds, x < 10)
    (h1 : minW ≤ ds.length) (h2 : ds.length ≤ w) (hb : digitsVal 0 ds < 2 ^ 63)
    (rest : List Char) (hr : headIsDigit rest = false) :
    scanNumber minW w (ds.map dChar ++ rest) = some (digitsVal 0 ds, rest) := by
  unfold scanNumber
  rw [scanDigits_full ds hds w 0 h2 rest hr]
  rw [if_neg (by omega)]
  exact if_pos hb

theorem trimLeftWs_cons {c : Char} (l : List Char) (hc : c.isWhitespace = false) :
    trimLeftWs (c :: l) = c :: l := by
  simp [trimLeftWs, List.dropWhile, hc]

theorem parseLit_cons (c : Char) (rest : List Char) : parseLit c (c :: rest) = some rest := by
  simp [parseLit]

theorem parseTwoDigits_pad2 (n : ℕ) (h : n < 100) (rest : List Char) :
    parseTwoDigits (pad2 n ++ rest) = some (n, rest) := by
  have h1 : n / 10 < 10 := by omega
  have h2 : n % 10 < 10 := by omega
  simp [parseTwoDigits, pad2, pad2d, dChar_isDigit h1, dChar_isDigit h2,
    digitVal_dChar h1, digitVal_dChar h2]
  omega

theorem parseTwoDigits_pad2x (n : ℕ) (h : n < 100) :
    parseTwoDigits (pad2 n) = some (n, []) := by
  have := parseTwoDigits_pad2 n h []
  simpa using this

theorem dropColonWs_keep {c : Char} (l : List Char) (hc : (c == ':') = false)
    (hw : c.isWhitespace = false) : dropColonWs (c :: l) = c :: l := by
  simp [dropColonWs, List.dropWhile, hc, hw]

theorem dropDigitChars_nondigit (l : List Char) (hr : headIsDigit l = false) :
    dropDigitChars l = l := by
  cases l with
  | nil => rfl
  | cons c cs =>
    simp only [headIsDigit] at hr
    simp [dropDigitChars, List.dropWhile, hr]

theorem dropDigitChars_map (ds : List ℕ) (hds : ∀ x ∈ ds, x < 10) (rest : List Char)
    (hr : headIsDigit rest = false) : dropDigitChars (ds.map dChar ++ rest) = rest := by
  induction ds with
  | nil => simpa using dropDigitChars_nondigit rest hr
  | cons d ds ih =>
    have hd : d < 10 := hds d (List.mem_cons_self _ _)
    have ih' := ih (fun x hx => hds x (List.mem_cons_of_mem _ hx))
    simp only [dropDigitChars, List.map_cons, List.cons_append, List.dropWhile,
      dChar_isDigit hd] at ih' ⊢
    exact ih'

theorem numItemCore_digit (w : ℕ) (sgn : Bool) (c : Char) (l : List Char)
    (hc1 : c ≠ '-') (hc2 : c ≠ '+') :
    numItemCore w sgn (c :: l) = (scanNumber 1 w (c :: l)).map (fun r => ((r.1 : ℤ), r.2)) := by
  simp [numItemCore, hc1, hc2]

theorem parseNumItem_render (w : ℕ) (sgn : Bool) (ds : List ℕ) (hds : ∀ x ∈ ds, x < 10)
    (hne : ds ≠ []) (hlen : ds.length ≤ w) (hb : digitsVal 0 ds < 2 ^ 63)
    (rest : List Char) (hr : headIsDigit rest = false) :
    parseNumItem w sgn (ds.map dChar ++ rest) = some ((digitsVal 0 ds : ℤ), rest) := by
  obtain ⟨d, ds', rfl⟩ : ∃ d ds', ds = d :: ds' := by
    cases ds with
    | nil => exact absurd rfl hne
    | cons d ds' => exact ⟨d, ds', rfl⟩
  have hd : d < 10 := hds d (List.mem_cons_self _ _)
  have hfacts := dChar_ne hd
  have hcons : (d :: ds').map dChar ++ rest = dChar d :: (ds'.map dChar ++ rest) := by simp
  unfold parseNumItem
  rw [hcons, trimLeftWs_cons _ hfacts.2.2.2.2.2.1,
    numItemCore_digit w sgn _ _ hfacts.2.1 hfacts.2.2.1, ← hcons,
    scanNumber_render 1 w (d :: ds') hds (by simp) hlen hb rest hr]
  rfl

theorem pad2d_lt (n : ℕ) (h : n < 100) : ∀ x ∈ pad2d n, x < 10 := by
  intro x hx
  simp [pad2d] at hx
  rcases hx with h1 | h1 <;> omega

theorem pad4d_lt (n : ℕ) (h : n < 10000) : ∀ x ∈ pad4d n, x < 10 := by
  intro x hx
  simp [pad4d] at hx
  rcases hx with h1 | h1 | h1 | h1 <;> omega

theorem digitsVal_pad2d (n : ℕ) (_h : n < 100) : digitsVal 0 (pad2d n) = n := by
  simp [digitsVal, pad2d]
  omega

theorem digitsVal_pad4d (n : ℕ) (h : n < 10000) : digitsVal 0 (pad4d n) = n := by
  simp [digitsVal, pad4d]
  omega

theorem parseNumItem_pad2 (sgn : Bool) (n : ℕ) (h : n < 100) (rest : List Char)
    (hr : headIsDigit rest = false) :
    parseNumItem 2 sgn (pad2 n ++ rest) = some ((n : ℤ), rest) := by
  have hx := parseNumItem_render 2 sgn (pad2d n) (pad2d_lt n h) (by simp [pad2d])
    (by simp [pad2d]) (by rw [digitsVal_pad2d n h]; exact h.trans (by norm_num)) rest hr
  rw [digitsVal_pad2d n h] at hx
  exact hx

theorem parseNumItem_pad4 (n : ℕ) (h : n < 10000) (rest : List Char)
    (hr : headIsDigit rest = false) :
    parseNumItem 4 true (pad4 n ++ rest) = some ((n : ℤ), rest) := by
  have hx := parseNumItem_render 4 true (pad4d n) (pad4d_lt n h) (by simp [pad4d])
    (by simp [pad4d]) (by rw [digitsVal_pad4d n h]; exact h.trans (by norm_num)) rest hr
  rw [digitsVal_pad4d n h] at hx
  exact hx

theorem parseNano_nodot (c : Char) (rest : List Char) (h : c ≠ '.') :
    parseNanoItem (c :: rest) = some (0, c :: rest) := by
  simp [parseNanoItem, h]

theorem parseNano_frac (frac : List ℕ) (hds : ∀ x ∈ frac, x < 10) (hne : frac ≠ [])
    (sr : List Char) (hr : headIsDigit sr = false) :
    parseNanoItem ('.' :: (frac.map dChar ++ sr)) = some (tsNano frac, sr) := by
  have hlen0 : frac.length ≠ 0 := fun h => hne (List.length_eq_zero.mp h)
  by_cases hlen : frac.length ≤ 9
  · have hscan := scanDigits_full frac hds 9 0 hlen sr hr
    simp [parseNanoItem, hscan, hlen0, dropDigitChars_nondigit sr hr, tsNano,
      List.take_of_length_le hlen, min_eq_left hlen]
  · have h9 : (9 : ℕ) ≤ frac.length := by omega
    have hscan := scanDigits_cap 9 frac hds h9 0 sr
    have hdrop := dropDigitChars_map (frac.drop 9)
      (fun x hx => hds x (List.mem_of_mem_drop hx)) sr hr
    have hdrop2 : dropDigitChars (List.drop 9 (List.map dChar frac) ++ sr) = sr := by
      rw [← List.map_drop]
      exact hdrop
    simp [parseNanoItem, hscan, hdrop2, tsNano, min_eq_right h9]

theorem tzItemCore_render (neg : Bool) (offH offM : ℕ) (hh : offH < 100) (hm : offM < 100) :
    tzItemCore neg (pad2 offH ++ pad2 offM) =
      some ((if neg then -1 else 1) * ((offH * 3600 + offM * 60 : ℕ) : ℤ), []) := by
  have hm10 : offM / 10 < 10 := by omega
  have hfacts := dChar_ne hm10
  have hdrop : dropColonWs (pad2 offM) = pad2 offM := by
    have := dropColonWs_keep (l := [dChar (offM % 10)]) hfacts.2.2.2.2.2.2 hfacts.2.2.2.2.2.1
    exact this
  unfold tzItemCore
  rw [parseTwoDigits_pad2 offH hh (pad2 offM)]
  simp only [Option.bind]
  rw [hdrop, parseTwoDigits_pad2x offM hm]
  rfl

theorem parseTz_render (neg : Bool) (offH offM : ℕ) (hh : offH < 100) (hm : offM < 100) :
    parseTzItem ((if neg then '-' else '+') :: (pad2 offH ++ pad2 offM)) =
      some ((if neg then -1 else 1) * ((offH * 3600 + offM * 60 : ℕ) : ℤ), []) := by
  cases neg with
  | false =>
    show parseTzItem ('+' :: (pad2 offH ++ pad2 offM)) = _
    unfold parseTzItem
    rw [trimLeftWs_cons _ (by decide)]
    exact tzItemCore_render false offH offM hh hm
  | true =>
    show parseTzItem ('-' :: (pad2 offH ++ pad2 offM)) = _
    unfold parseTzItem
    rw [trimLeftWs_cons _ (by decide)]
    exact tzItemCore_render true offH offM hh hm

theorem mkDateTime_valid (p : TsParts) (hv : validTs p) :
    mkDateTime (p.y : ℤ) (p.mo : ℤ) (p.d : ℤ) (p.h : ℤ) (p.mi : ℤ) (p.s : ℤ)
      (tsNano p.frac) (tsOffset p) = some (tsValue p) := by
  obtain ⟨hy, hmo1, hmo2, hd1, hd2, hh, hmi, hs, _, hoh, hom⟩ := hv
  have hoffb : (p.offH * 3600 + p.offM * 60 : ℕ) ≤ 86340 := by omega
  have hoff1 : -86400 < tsOffset p := by
    unfold tsOffset
    cases p.offNeg <;> simp <;> omega
  have hoff2 : tsOffset p < 86400 := by
    unfold tsOffset
    cases p.offNeg <;> simp <;> omega
  have hcond : (-262144 ≤ (p.y : ℤ) ∧ (p.y : ℤ) ≤ 262143 ∧ 1 ≤ (p.mo : ℤ) ∧
      (p.mo : ℤ) ≤ 12 ∧ 1 ≤ (p.d : ℤ) ∧
      (p.d : ℤ) ≤ (daysInMonth (p.y : ℤ) (p.mo : ℤ).toNat : ℤ) ∧
      0 ≤ (p.h : ℤ) ∧ (p.h : ℤ) < 24 ∧ 0 ≤ (p.mi : ℤ) ∧ (p.mi : ℤ) < 60 ∧
      0 ≤ (p.s : ℤ) ∧ (p.s : ℤ) ≤ 60 ∧ -86400 < tsOffset p ∧ tsOffset p < 86400) := by
    refine ⟨by omega, by omega, by omega, by omega, by omega, ?_, by omega, by omega,
      by omega, by omega, by omega, by omega, hoff1, hoff2⟩
    rw [Int.toNat_natCast]
    exact_mod_cast hd2
  unfold mkDateTime
  rw [if_pos hcond, if_neg (by omega : ¬ (p.s : ℤ) = 60)]
  simp [tsValue, Int.toNat_natCast]

theorem daysInMonth_le (y : ℤ) (m : ℕ) : daysInMonth y m ≤ 31 := by
  unfold daysInMonth
  split_ifs <;> norm_num

theorem pad2_no_space (n : ℕ) (hn : n < 100) : ' ' ∉ pad2 n := by
  intro hm
  simp only [pad2, pad2d, List.mem_map, List.mem_cons, List.not_mem_nil, or_false,
    List.mem_singleton] at hm
  obtain ⟨a, ha, hae⟩ := hm
  have ha10 : a < 10 := by rcases ha with h' | h' <;> omega
  exact (dChar_ne ha10).1 hae

theorem pad4_no_space (n : ℕ) (hn : n < 10000) : ' ' ∉ pad4 n := by
  intro hm
  simp only [pad4, pad4d, List.mem_map, List.mem_cons, List.not_mem_nil, or_false,
    List.mem_singleton] at hm
  obtain ⟨a, ha, hae⟩ := hm
  have ha10 : a < 10 := by rcases ha with h' | h' | h' | h' <;> omega
  exact (dChar_ne ha10).1 hae

theorem renderTs_no_space (p : TsParts) (hv : validTs p) : ' ' ∉ renderTs p := by
  obtain ⟨y, mo, d, h, mi, s, frac, offNeg, offH, offM⟩ := p
  obtain ⟨hy, hmo1, hmo2, hd1, hd2, hh, hmi, hs, hfr, hoh, hom⟩ := hv
  dsimp only at hy hmo1 hmo2 hd1 hd2 hh hmi hs hfr hoh hom
  have hd31 := daysInMonth_le (y : ℤ) mo
  intro hm
  simp only [renderTs, List.append_assoc, List.cons_append] at hm
  rcases List.mem_append.mp hm with h1 | h1
  · exact pad4_no_space y (by omega) h1
  rcases List.mem_cons.mp h1 with h2 | h2
  · exact absurd h2 (by decide)
  rcases List.mem_append.mp h2 with h3 | h3
  · exact pad2_no_space mo (by omega) h3
  rcases List.mem_cons.mp h3 with h4 | h4
  · exact absurd h4 (by decide)
  rcases List.mem_append.mp h4 with h5 | h5
  · exact pad2_no_space d (by omega) h5
  rcases List.mem_cons.mp h5 with h6 | h6
  · exact absurd h6 (by decide)
  rcases List.mem_append.mp h6 with h7 | h7
  · exact pad2_no_space h (by omega) h7
  rcases List.mem_cons.mp h7 with h8 | h8
  · exact absurd h8 (by decide)
  rcases List.mem_append.mp h8 with h9 | h9
  · exact pad2_no_space mi (by omega) h9
  rcases List.mem_cons.mp h9 with h10 | h10
  · exact absurd h10 (by decide)
  rcases List.mem_append.mp h10 with h11 | h11
  · exact pad2_no_space s (by omega) h11
  rcases List.mem_append.mp h11 with h12 | h12
  · rcases frac with _ | ⟨f0, fs⟩
    · simp at h12
    · rw [if_neg (List.cons_ne_nil f0 fs)] at h12
      rcases List.mem_cons.mp h12 with h13 | h13
      · exact absurd h13 (by decide)
      · simp only [List.mem_map] at h13
        obtain ⟨a, ha, hae⟩ := h13
        exact (dChar_ne (hfr a ha)).1 hae
  rcases List.mem_cons.mp h12 with h13 | h13
  · cases offNeg <;> simp at h13
  rcases List.mem_append.mp h13 with h14 | h14
  · exact pad2_no_space offH (by omega) h14
  · exact pad2_no_space offM (by omega) h14

set_option maxHeartbeats 2000000 in
theorem chronoParse_render (p : TsParts) (hv : validTs p) :
    chronoParse (renderTs p) = some (tsValue p) := by
  obtain ⟨y, mo, d, h, mi, s, frac, offNeg, offH, offM⟩ := p
  obtain ⟨hy, hmo1, hmo2, hd1, hd2, hh, hmi, hs, hfr, hoh, hom⟩ := hv
  dsimp only at hy hmo1 hmo2 hd1 hd2 hh hmi hs hfr hoh hom
  have hd31 := daysInMonth_le (y : ℤ) mo
  have hr11 : headIsDigit ((if frac = [] then [] else '.' :: frac.map dChar) ++ (if offNeg then '-' else '+') :: (pad2 offH ++ pad2 offM)) = false := by
    rcases frac with _ | ⟨f0, fs⟩
    · cases offNeg <;> rfl
    · rfl
  have hsg : headIsDigit ((if offNeg then '-' else '+') :: (pad2 offH ++ pad2 offM)) = false := by
    cases offNeg <;> rfl
  have e1 : parseNumItem 4 true (pad4 y ++ '-' :: (pad2 mo ++ '-' :: (pad2 d ++ 'T' :: (pad2 h ++ ':' :: (pad2 mi ++ ':' :: (pad2 s ++ ((if frac = [] then [] else '.' :: frac.map dChar) ++ (if offNeg then '-' else '+') :: (pad2 offH ++ pad2 offM)))))))) =
      some ((y : ℤ), '-' :: (pad2 mo ++ '-' :: (pad2 d ++ 'T' :: (pad2 h ++ ':' :: (pad2 mi ++
        ':' :: (pad2 s ++ ((if frac = [] then [] else '.' :: frac.map dChar) ++ (if offNeg
        then '-' else '+') :: (pad2 offH ++ pad2 offM)))))))) :=
    parseNumItem_pad4 y (by omega) _ rfl
  have e2 : parseLit '-' ('-' :: (pad2 mo ++ '-' :: (pad2 d ++ 'T' :: (pad2 h ++ ':' :: (pad2 mi ++ ':' :: (pad2 s ++ ((if frac = [] then [] else '.' :: frac.map dChar) ++ (if offNeg then '-' else '+') :: (pad2 offH ++ pad2 offM)))))))) =
      some (pad2 mo ++ '-' :: (pad2 d ++ 'T' :: (pad2 h ++ ':' :: (pad2 mi ++ ':' :: (pad2 s
        ++ ((if frac = [] then [] else '.' :: frac.map dChar) ++ (if offNeg then '-' else '+')
        :: (pad2 offH ++ pad2 offM))))))) :=
    parseLit_cons '-' _
  have e3 : parseNumItem 2 false (pad2 mo ++ '-' :: (pad2 d ++ 'T' :: (pad2 h ++ ':' :: (pad2 mi ++ ':' :: (pad2 s ++ ((if frac = [] then [] else '.' :: frac.map dChar) ++ (if offNeg then '-' else '+') :: (pad2 offH ++ pad2 offM))))))) =
      some ((mo : ℤ), '-' :: (pad2 d ++ 'T' :: (pad2 h ++ ':' :: (pad2 mi ++ ':' :: (pad2 s ++
        ((if frac = [] then [] else '.' :: frac.map dChar) ++ (if offNeg then '-' else '+') ::
        (pad2 offH ++ pad2 offM))))))) :=
    parseNumItem_pad2 false mo (by omega) _ rfl
  have e4 : parseLit '-' ('-' :: (pad2 d ++ 'T' :: (pad2 h ++ ':' :: (pad2 mi ++ ':' :: (pad2 s ++ ((if frac = [] then [] else '.' :: frac.map dChar) ++ (if offNeg then '-' else '+') :: (pad2 offH ++ pad2 offM))))))) =
      some (pad2 d ++ 'T' :: (pad2 h ++ ':' :: (pad2 mi ++ ':' :: (pad2 s ++ ((if frac = []
        then [] else '.' :: frac.map dChar) ++ (if offNeg then '-' else '+') :: (pad2 offH ++
        pad2 offM)))))) :=
    parseLit_cons '-' _
  have e5 : parseNumItem 2 false (pad2 d ++ 'T' :: (pad2 h ++ ':' :: (pad2 mi ++ ':' :: (pad2 s ++ ((if frac = [] then [] else '.' :: frac.map dChar) ++ (if offNeg then '-' else '+') :: (pad2 offH ++ pad2 offM)))))) =
      some ((d : ℤ), 'T' :: (pad2 h ++ ':' :: (pad2 mi ++ ':' :: (pad2 s ++ ((if frac = []
        then [] else '.' :: frac.map dChar) ++ (if offNeg then '-' else '+') :: (pad2 offH ++
        pad2 offM)))))) :=
    parseNumItem_pad2 false d (by omega) _ rfl
  have e6 : parseLit 'T' ('T' :: (pad2 h ++ ':' :: (pad2 mi ++ ':' :: (pad2 s ++ ((if frac = [] then [] else '.' :: frac.map dChar) ++ (if offNeg then '-' else '+') :: (pad2 offH ++ pad2 offM)))))) =
      some (pad2 h ++ ':' :: (pad2 mi ++ ':' :: (pad2 s ++ ((if frac = [] then [] else '.' ::
        frac.map dChar) ++ (if offNeg then '-' else '+') :: (pad2 offH ++ pad2 offM))))) :=
    parseLit_cons 'T' _
  have e7 : parseNumItem 2 false (pad2 h ++ ':' :: (pad2 mi ++ ':' :: (pad2 s ++ ((if frac = [] then [] else '.' :: frac.map dChar) ++ (if offNeg then '-' else '+') :: (pad2 offH ++ pad2 offM))))) =
      some ((h : ℤ), ':' :: (pad2 mi ++ ':' :: (pad2 s ++ ((if frac = [] then [] else '.' ::
        frac.map dChar) ++ (if offNeg then '-' else '+') :: (pad2 offH ++ pad2 offM))))) :=
    parseNumItem_pad2 false h (by omega) _ rfl
  have e8 : parseLit ':' (':' :: (pad2 mi ++ ':' :: (pad2 s ++ ((if frac = [] then [] else '.' :: frac.map dChar) ++ (if offNeg then '-' else '+') :: (pad2 offH ++ pad2 offM))))) =
      some (pad2 mi ++ ':' :: (pad2 s ++ ((if frac = [] then [] else '.' :: frac.map dChar) ++
        (if offNeg then '-' else '+') :: (pad2 offH ++ pad2 offM)))) :=
    parseLit_cons ':' _
  have e9 : parseNumItem 2 false (pad2 mi ++ ':' :: (pad2 s ++ ((if frac = [] then [] else '.' :: frac.map dChar) ++ (if offNeg then '-' else '+') :: (pad2 offH ++ pad2 offM)))) =
      some ((mi : ℤ), ':' :: (pad2 s ++ ((if frac = [] then [] else '.' :: frac.map dChar) ++
        (if offNeg then '-' else '+') :: (pad2 offH ++ pad2 offM)))) :=
    parseNumItem_pad2 false mi (by omega) _ rfl
  have e10 : parseLit ':' (':' :: (pad2 s ++ ((if frac = [] then [] else '.' :: frac.map dChar) ++ (if offNeg then '-' else '+') :: (pad2 offH ++ pad2 offM)))) =
      some (pad2 s ++ ((if frac = [] then [] else '.' :: frac.map dChar) ++ (if offNeg then
        '-' else '+') :: (pad2 offH ++ pad2 offM))) :=
    parseLit_cons ':' _
  have e11 : parseNumItem 2 false (pad2 s ++ ((if frac = [] then [] else '.' :: frac.map dChar) ++ (if offNeg then '-' else '+') :: (pad2 offH ++ pad2 offM))) =
      some ((s : ℤ), (if frac = [] then [] else '.' :: frac.map dChar) ++ (if offNeg then '-'
        else '+') :: (pad2 offH ++ pad2 offM)) :=
    parseNumItem_pad2 false s (by omega) _ hr11
  have e12 : parseNanoItem ((if frac = [] then [] else '.' :: frac.map dChar) ++ (if offNeg then '-' else '+') :: (pad2 offH ++ pad2 offM)) =
      some (tsNano frac, (if offNeg then '-' else '+') :: (pad2 offH ++ pad2 offM)) := by
    rcases frac with _ | ⟨f0, fs⟩
    · cases offNeg <;> exact parseNano_nodot _ _ (by decide)
    · rw [if_neg (List.cons_ne_nil f0 fs), List.cons_append]
      exact parseNano_frac (f0 :: fs) hfr (List.cons_ne_nil f0 fs) _ hsg
  have e13 : parseTzItem ((if offNeg then '-' else '+') :: (pad2 offH ++ pad2 offM)) =
      some ((if offNeg then -1 else 1) * ((offH * 3600 + offM * 60 : ℕ) : ℤ), []) :=
    parseTz_render offNeg offH offM (by omega) (by omega)
  simp only [renderTs, List.append_assoc, List.cons_append]
  simp only [chronoParse, e1, e2, e3, e4, e5, e6, e7, e8, e9, e10, e11, e12, e13,
    Option.bind_eq_bind, Option.some_bind, if_pos]
  exact mkDateTime_valid ⟨y, mo, d, h, mi, s, frac, offNeg, offH, offM⟩
    ⟨hy, hmo1, hmo2, hd1, hd2, hh, hmi, hs, hfr, hoh, hom⟩


/-- C4 (amended): `parse_date` accepts every well-formed timestamp of shape
`YYYY-MM-DDTHH:MM:SS[.fff...]±HHMM` — zero-padded calendar date, time of day,
optional fractional-second digits after a dot, and a signed four-digit offset —
consuming the input up to the first space and leaving the space in the
remainder. The fractional seconds are kept at nanosecond resolution (the first
nine digits are significant), not millisecond precision as the spec claims:
the value carries `tsNano p.frac` nanoseconds. -/
theorem c4_amended_timestamp (p : TsParts) (r : List Char) (hv : validTs p) :
    parse_date (renderTs p ++ ' ' :: r) = .ok (' ' :: r) (tsValue p) := by
  unfold parse_date
  rw [takeUntil_found ' ' (renderTs p) r (renderTs_no_space p hv)]
  simp only [chronoParse_render p hv]

theorem c4_amended_timestamp_w :
    renderTs ⟨2021, 9, 28, 11, 58, 42, [7, 3], false, 9, 0⟩ =
      "2021-09-28T11:58:42.73+0900".toList ∧
    tsValue ⟨2021, 9, 28, 11, 58, 42, [7, 3], false, 9, 0⟩ =
      ⟨2021, 9, 28, 11, 58, 42, 730000000, 32400⟩ ∧
    parse_date (renderTs ⟨2021, 9, 28, 11, 58, 42, [7, 3], false, 9, 0⟩ ++ ' ' :: []) =
      .ok (' ' :: []) (tsValue ⟨2021, 9, 28, 11, 58, 42, [7, 3], false, 9, 0⟩) :=
  ⟨by decide, by decide,
    c4_amended_timestamp ⟨2021, 9, 28, 11, 58, 42, [7, 3], false, 9, 0⟩ []
      (by unfold validTs; decide)⟩
